import Mathlib

set_option maxHeartbeats 1000000
set_option maxRecDepth 8192

/-!
Shallow embedding of the privacy-health-ledger zero-knowledge proving
subsystem (the `zk-proofs` crate and the backend's proving pipeline),
together with proofs about the specified properties.

Modelling conventions:
* The BN254 scalar field `Fr` is embedded as `ZMod bn254r`.
* `u8` / `u16` record fields are embedded as `Fin 256` / `Fin 65536`,
  matching the Rust types exactly.
* The `u64` statistics counters are embedded as `Nat`; for the shard
  sizes admitted by the code's own contract (`N · max_value` far below
  the field size, spec section 4.3) the counters never overflow, so the
  embedding agrees with the Rust arithmetic on all reachable states.
* The Poseidon sponge (an external `ark-crypto-primitives` dependency,
  instantiated identically for the native hasher and the in-circuit
  gadget via the shared `poseidon_config()`) is modelled by its absorbed
  input sequence together with an arbitrary `squeeze` function of that
  sequence; every theorem that involves the commitment is universally
  quantified over `squeeze`, so nothing is assumed about Poseidon's
  internals beyond determinism.
* The Groth16 SNARK and the arkworks canonical serializers (external
  dependencies) are modelled as abstract function parameters; their
  documented guarantees (completeness, serialization round trip) appear
  as explicit hypotheses where a claim needs them.
-/

namespace PrivacyHealthLedger

/-- Modulus of the BN254 scalar field `Fr` (`ark_bn254::Fr`). -/
def bn254r : Nat :=
  21888242871839275222246405745257275088548364400416034343698204186575808495617

/-- The field `F` over which commitments and circuit values live. -/
abbrev F : Type := ZMod bn254r

instance : NeZero bn254r := ⟨by decide⟩

/-- Embedding of `types.rs::Record`: one synthetic health record, with
`age : u8` and `blood_glucose_mg_dl : u16`. -/
structure Record where
  age : Fin 256
  blood_glucose_mg_dl : Fin 65536
  deriving DecidableEq

/-- Embedding of `constants.rs::DEFAULT_SHARD_SIZE`. -/
def DEFAULT_SHARD_SIZE : Nat := 1000

/-- Embedding of `constants.rs::NUM_BUCKETS`. -/
abbrev NUM_BUCKETS : Nat := 6

/-- Embedding of `constants.rs::AGE_BUCKETS`: inclusive (min, max) age
bounds for each bucket. -/
def AGE_BUCKETS : List (Nat × Nat) :=
  [(0, 17), (18, 29), (30, 39), (40, 49), (50, 64), (65, 120)]

/-- Helper for `bucket_for_age`: the enumerated search loop of
`types.rs::bucket_for_age`, returning the index of the first bucket
whose inclusive bounds contain `age`. -/
def bucketSearch (age : Nat) : List (Nat × Nat) → Nat → Option Nat
  | [], _ => none
  | (mn, mx) :: rest, i =>
    if mn ≤ age ∧ age ≤ mx then some i else bucketSearch age rest (i + 1)

/-- Embedding of `types.rs::bucket_for_age`: first matching bucket,
with ages outside the configured range clamped to the last bucket. -/
def bucket_for_age (age : Nat) : Nat :=
  (bucketSearch age AGE_BUCKETS 0).getD (NUM_BUCKETS - 1)

theorem bucketSearch_lt (age : Nat) :
    ∀ (l : List (Nat × Nat)) (s i : Nat),
      bucketSearch age l s = some i → i < s + l.length := by
  intro l
  induction l with
  | nil => intro s i h; simp [bucketSearch] at h
  | cons hd tl ih =>
    intro s i h
    obtain ⟨mn, mx⟩ := hd
    simp only [bucketSearch] at h
    split at h
    · injection h with h
      subst h
      simp only [List.length_cons]
      omega
    · have := ih (s + 1) i h
      simp only [List.length_cons]
      omega

theorem bucket_for_age_lt (age : Nat) : bucket_for_age age < NUM_BUCKETS := by
  unfold bucket_for_age
  cases h : bucketSearch age AGE_BUCKETS 0 with
  | none => simp [Option.getD, NUM_BUCKETS]
  | some i =>
    have := bucketSearch_lt age AGE_BUCKETS 0 i h
    simpa [Option.getD, AGE_BUCKETS, NUM_BUCKETS] using this

/-- Embedding of `types.rs::ShardStats`: per-bucket glucose sums and
record counts (Rust `[u64; NUM_BUCKETS]` arrays). -/
structure ShardStats where
  sum_glucose_by_bucket : Fin NUM_BUCKETS → Nat
  count_by_bucket : Fin NUM_BUCKETS → Nat

instance : DecidableEq ShardStats := fun s t =>
  if h1 : s.sum_glucose_by_bucket = t.sum_glucose_by_bucket then
    if h2 : s.count_by_bucket = t.count_by_bucket then
      isTrue (by cases s; cases t; simp_all)
    else isFalse (by intro h; cases h; exact h2 rfl)
  else isFalse (by intro h; cases h; exact h1 rfl)

/-- Embedding of `ShardStats::zero`. -/
def ShardStats.zero : ShardStats :=
  { sum_glucose_by_bucket := fun _ => 0, count_by_bucket := fun _ => 0 }

/-- Bucket index of a record under the native evaluator, as a `Fin`
(the Rust code indexes the length-6 arrays with `bucket_for_age`,
which is always in range by `bucket_for_age_lt`). -/
def recordBucket (r : Record) : Fin NUM_BUCKETS :=
  ⟨bucket_for_age r.age.val, bucket_for_age_lt r.age.val⟩

/-- One iteration of the native evaluator's statistics update:
`stats.sum_glucose_by_bucket[b] += glucose; stats.count_by_bucket[b] += 1`
(groth16.rs lines 49-51). -/
def ShardStats.addRecord (s : ShardStats) (r : Record) : ShardStats :=
  { sum_glucose_by_bucket :=
      Function.update s.sum_glucose_by_bucket (recordBucket r)
        (s.sum_glucose_by_bucket (recordBucket r) + r.blood_glucose_mg_dl.val)
    count_by_bucket :=
      Function.update s.count_by_bucket (recordBucket r)
        (s.count_by_bucket (recordBucket r) + 1) }

/-- The two field elements absorbed into the Poseidon sponge for one
record: `[Fr::from(age), Fr::from(blood_glucose_mg_dl)]`
(groth16.rs line 47). -/
def recordAbsorb (r : Record) : List F :=
  [(r.age.val : F), (r.blood_glucose_mg_dl.val : F)]

/-- One iteration of the native evaluator's loop: extend the sponge's
absorbed sequence by the record's two field elements and update the
statistics (groth16.rs lines 46-52). -/
def shardStep (st : List F × ShardStats) (r : Record) : List F × ShardStats :=
  (st.1 ++ recordAbsorb r, st.2.addRecord r)

/-- The native evaluator's full pass over the records: the sponge's
absorbed sequence and the accumulated statistics. -/
def shardScan (records : List Record) : List F × ShardStats :=
  records.foldl shardStep ([], ShardStats.zero)

/-- Embedding of `groth16.rs::ZkError`. -/
inductive ZkError where
  | InvalidShardSize (expected got : Nat)
  | Serialization (msg : String)
  | VerificationFailed
  | Ark (msg : String)
  deriving DecidableEq

/-- Embedding of `groth16.rs::compute_shard_commitment_and_stats`:
reject slices of the wrong length, otherwise absorb every record's
`(age, glucose)` pair in record order, squeeze one field element, and
return it with the bucketed statistics.  `squeeze` is the abstract
Poseidon squeeze (see the module comment). -/
def compute_shard_commitment_and_stats (N : Nat) (squeeze : List F → F)
    (records : List Record) : Except ZkError (F × ShardStats) :=
  if records.length ≠ N then
    .error (.InvalidShardSize N records.length)
  else
    let p := shardScan records
    .ok (squeeze p.1, p.2)

/-- Embedding of `groth16.rs::shard_public_inputs_to_field_elems`:
`[commitment, sum_0..sum_5, count_0..count_5]` as field elements. -/
def shard_public_inputs_to_field_elems (commitment : F) (stats : ShardStats) :
    List F :=
  commitment ::
    ((List.ofFn fun i : Fin NUM_BUCKETS => ((stats.sum_glucose_by_bucket i : Nat) : F)) ++
     (List.ofFn fun i : Fin NUM_BUCKETS => ((stats.count_by_bucket i : Nat) : F)))

/-- Embedding of `circuit.rs::bits_le_to_fp`: fold little-endian bits
into a field element, doubling the coefficient each step. -/
def bits_le_to_fp (bits : List Bool) : F :=
  (bits.foldl (fun st b => (st.1 + (if b then st.2 else 0), st.2 + st.2))
    ((0 : F), (1 : F))).1

/-- Little-endian bits of the 8-bit age witness value
(`constrain_u8`'s `v.to_bits_le()[..8]`; the witness is
`Fr::from(rec.age)` with `age < 256`, whose low 8 bits are the bits of
`age`). -/
def witnessBits8 (a : Fin 256) : List Bool :=
  (List.range 8).map fun i => Nat.testBit a.val i

/-- Little-endian bits of the 16-bit glucose witness value
(`constrain_u16`'s `v.to_bits_le()[..16]`). -/
def witnessBits16 (v : Fin 65536) : List Bool :=
  (List.range 16).map fun i => Nat.testBit v.val i

/-- One iteration of `circuit.rs::leq_const_u8`'s MSB-to-LSB loop over
bit index `i`, carrying the `(less, equal)` state. -/
def leqStep (a : Fin 256) (c : Nat) (st : Bool × Bool) (i : Nat) : Bool × Bool :=
  let ai := Nat.testBit a.val i
  let ci := Nat.testBit c i
  let less := if ci then st.1 || (st.2 && !ai) else st.1
  let equal := st.2 && (if ci then ai else !ai)
  (less, equal)

/-- Embedding of `circuit.rs::leq_const_u8`: lexicographic compare of
the 8 age bits against the constant `c`, MSB first. -/
def leq_const_u8 (a : Fin 256) (c : Nat) : Bool :=
  let st := [7, 6, 5, 4, 3, 2, 1, 0].foldl (leqStep a c) (false, true)
  st.1 || st.2

/-- Embedding of `circuit.rs::geq_const_u8`: constant-true for `c = 0`,
otherwise the negation of `a ≤ c - 1`. -/
def geq_const_u8 (a : Fin 256) (c : Nat) : Bool :=
  if c = 0 then true else ! leq_const_u8 a (c - 1)

/-- Embedding of `circuit.rs::in_range_u8`: `mn ≤ a ∧ a ≤ mx`. -/
def in_range_u8 (a : Fin 256) (mn mx : Nat) : Bool :=
  geq_const_u8 a mn && leq_const_u8 a mx

/-- Inclusive bounds of bucket `b` as read by the circuit's loop over
`AGE_BUCKETS.iter().enumerate()`. -/
def bucketBounds (b : Fin NUM_BUCKETS) : Nat × Nat :=
  AGE_BUCKETS.getD b.val (0, 0)

/-- The circuit's per-bucket membership boolean `in_bucket`
(circuit.rs line 160). -/
def circuitInBucket (b : Fin NUM_BUCKETS) (age : Fin 256) : Bool :=
  in_range_u8 age (bucketBounds b).1 (bucketBounds b).2

/-- The circuit's `in_any_bucket` disjunction, folded in bucket order
(circuit.rs lines 158-161). -/
def in_any_bucket (age : Fin 256) : Bool :=
  (List.finRange NUM_BUCKETS).foldl (fun acc b => acc || circuitInBucket b age) false

/-- One record's update of the circuit's running `sum_vars` and
`count_vars` accumulators: per bucket, conditionally add the glucose
value and the constant one (circuit.rs lines 163-169). -/
def circuitRecordStep (acc : (Fin NUM_BUCKETS → F) × (Fin NUM_BUCKETS → F))
    (r : Record) : (Fin NUM_BUCKETS → F) × (Fin NUM_BUCKETS → F) :=
  (fun b => acc.1 b +
      (if circuitInBucket b r.age then ((r.blood_glucose_mg_dl.val : Nat) : F) else 0),
   fun b => acc.2 b + (if circuitInBucket b r.age then 1 else 0))

/-- The circuit's accumulated `sum_vars` and `count_vars` after the
pass over all witness records. -/
def circuitAggregates (records : List Record) :
    (Fin NUM_BUCKETS → F) × (Fin NUM_BUCKETS → F) :=
  records.foldl circuitRecordStep (fun _ => 0, fun _ => 0)

/-- The sequence of field elements the in-circuit sponge absorbs:
`[age, glucose]` per record, in record order (circuit.rs line 152). -/
def circuitAbsorbSeq (records : List Record) : List F :=
  records.foldl
    (fun seq r => seq ++ [((r.age.val : Nat) : F), ((r.blood_glucose_mg_dl.val : Nat) : F)])
    []

/-- Embedding of `circuit.rs::HealthShardCircuit`: private witness
records plus the public commitment and aggregate arrays. -/
structure HealthShardCircuit where
  records : List Record
  public_shard_commitment : F
  public_sum_glucose_by_bucket : Fin NUM_BUCKETS → Nat
  public_count_by_bucket : Fin NUM_BUCKETS → Nat

/-- The values allocated by the circuit's `new_input` calls, in
allocation order: commitment, then sums, then counts
(circuit.rs lines 116-128). -/
def circuitPublicInputs (c : HealthShardCircuit) : List F :=
  c.public_shard_commitment ::
    ((List.ofFn fun i : Fin NUM_BUCKETS => ((c.public_sum_glucose_by_bucket i : Nat) : F)) ++
     (List.ofFn fun i : Fin NUM_BUCKETS => ((c.public_count_by_bucket i : Nat) : F)))

/-- Satisfaction of `HealthShardCircuit::generate_constraints` by the
assignment induced by the circuit's own witness records: the length
check (line 131), the per-record range-reconstruction and
bucket-exhaustiveness constraints, the commitment binding, and the
aggregate equalities.  `squeeze` is the abstract Poseidon squeeze
shared with the native evaluator (spec section 4.1). -/
def circuitConstraintsHold (N : Nat) (squeeze : List F → F)
    (c : HealthShardCircuit) : Prop :=
  c.records.length = N ∧
  (∀ r ∈ c.records,
    bits_le_to_fp (witnessBits8 r.age) = ((r.age.val : Nat) : F) ∧
    bits_le_to_fp (witnessBits16 r.blood_glucose_mg_dl) = ((r.blood_glucose_mg_dl.val : Nat) : F) ∧
    in_any_bucket r.age = true) ∧
  squeeze (circuitAbsorbSeq c.records) = c.public_shard_commitment ∧
  (∀ b, (circuitAggregates c.records).1 b = ((c.public_sum_glucose_by_bucket b : Nat) : F)) ∧
  (∀ b, (circuitAggregates c.records).2 b = ((c.public_count_by_bucket b : Nat) : F))

instance (N : Nat) (squeeze : List F → F) (c : HealthShardCircuit) :
    Decidable (circuitConstraintsHold N squeeze c) := by
  unfold circuitConstraintsHold
  infer_instance

section Orchestration

variable {PK VK Pf R : Type}

/-- Embedding of `groth16.rs::setup_keys`: build the all-zero dummy
witness, evaluate it natively, synthesize the circuit, and run the
Groth16 parameter generation (`gsetup`, abstract: arkworks
`generate_random_parameters_with_reduction`). -/
def setup_keys (N : Nat) (squeeze : List F → F)
    (gsetup : HealthShardCircuit → R → Except String (PK × VK))
    (rng : R) : Except ZkError (PK × VK) :=
  match compute_shard_commitment_and_stats N squeeze
      (List.replicate N ({ age := 0, blood_glucose_mg_dl := 0 } : Record)) with
  | .error e => .error e
  | .ok (commitment, stats) =>
    (gsetup
      { records := List.replicate N ({ age := 0, blood_glucose_mg_dl := 0 } : Record)
        public_shard_commitment := commitment
        public_sum_glucose_by_bucket := stats.sum_glucose_by_bucket
        public_count_by_bucket := stats.count_by_bucket } rng).mapError ZkError.Ark

/-- Embedding of `groth16.rs::prove_shard`: reject a wrong-size slice,
evaluate the records natively, synthesize the circuit with the records
as witness and the native outputs as public assignment, and run the
Groth16 prover (`gprove`, abstract: arkworks
`create_random_proof_with_reduction`). -/
def prove_shard (N : Nat) (squeeze : List F → F)
    (gprove : HealthShardCircuit → PK → R → Except String Pf)
    (rng : R) (pk : PK) (records : List Record) :
    Except ZkError (Pf × F × ShardStats) :=
  if records.length ≠ N then
    .error (.InvalidShardSize N records.length)
  else
    match compute_shard_commitment_and_stats N squeeze records with
    | .error e => .error e
    | .ok (commitment, stats) =>
      match (gprove
          { records := records
            public_shard_commitment := commitment
            public_sum_glucose_by_bucket := stats.sum_glucose_by_bucket
            public_count_by_bucket := stats.count_by_bucket } pk rng).mapError ZkError.Ark with
      | .error e => .error e
      | .ok proof => .ok (proof, commitment, stats)

/-- Embedding of `groth16.rs::verify_shard_proof`: build the ordered
public-input vector and run the Groth16 pairing check (`gverify`,
abstract: arkworks `verify_proof`), turning a `false` verdict into
`ZkError::VerificationFailed`. -/
def verify_shard_proof (gverify : VK → Pf → List F → Except String Bool)
    (vk : VK) (proof : Pf) (commitment : F) (stats : ShardStats) :
    Except ZkError Unit :=
  match (gverify vk proof (shard_public_inputs_to_field_elems commitment stats)).mapError
      ZkError.Ark with
  | .error e => .error e
  | .ok ok => if ok then .ok () else .error .VerificationFailed

/-- Modelled from the spec: completeness of the (external, arkworks)
Groth16 SNARK over the shard circuit, the guarantee spec section 4.5
relies on — a proof produced with a proving key from a setup over the
same circuit shape (same `N`), for an instance whose constraints are
satisfied, verifies against that instance's public-input vector. -/
def Groth16Complete (squeeze : List F → F)
    (gsetup : HealthShardCircuit → R → Except String (PK × VK))
    (gprove : HealthShardCircuit → PK → R → Except String Pf)
    (gverify : VK → Pf → List F → Except String Bool) : Prop :=
  ∀ (c0 c : HealthShardCircuit) (r r' : R) (pk : PK) (vk : VK) (pf : Pf),
    gsetup c0 r = .ok (pk, vk) →
    c.records.length = c0.records.length →
    gprove c pk r' = .ok pf →
    circuitConstraintsHold c.records.length squeeze c →
    gverify vk pf (circuitPublicInputs c) = .ok true

/-- Embedding of `groth16.rs::serialize_pk` (plumbing around the
abstract arkworks canonical serializer `ser`). -/
def serialize_pk (ser : PK → Except String (List Nat)) (pk : PK) :
    Except ZkError (List Nat) :=
  (ser pk).mapError ZkError.Serialization

/-- Embedding of `groth16.rs::deserialize_pk`. -/
def deserialize_pk (deser : List Nat → Except String PK) (bytes : List Nat) :
    Except ZkError PK :=
  (deser bytes).mapError ZkError.Serialization

/-- Embedding of `groth16.rs::serialize_vk`. -/
def serialize_vk (ser : VK → Except String (List Nat)) (vk : VK) :
    Except ZkError (List Nat) :=
  (ser vk).mapError ZkError.Serialization

/-- Embedding of `groth16.rs::deserialize_vk`. -/
def deserialize_vk (deser : List Nat → Except String VK) (bytes : List Nat) :
    Except ZkError VK :=
  (deser bytes).mapError ZkError.Serialization

/-- Embedding of `groth16.rs::serialize_proof`. -/
def serialize_proof (ser : Pf → Except String (List Nat)) (proof : Pf) :
    Except ZkError (List Nat) :=
  (ser proof).mapError ZkError.Serialization

/-- Embedding of `groth16.rs::deserialize_proof`. -/
def deserialize_proof (deser : List Nat → Except String Pf) (bytes : List Nat) :
    Except ZkError Pf :=
  (deser bytes).mapError ZkError.Serialization

end Orchestration

/-- Little-endian base-256 bytes of `n`, `k` bytes long (the shape of
arkworks' compressed encoding of a BN254 `Fr`). -/
def natToBytesLE : Nat → Nat → List Nat
  | 0, _ => []
  | k + 1, n => n % 256 :: natToBytesLE k (n / 256)

/-- Recombine little-endian base-256 bytes into a natural number. -/
def bytesToNatLE (bs : List Nat) : Nat :=
  bs.foldr (fun b acc => b + 256 * acc) 0

/-- Embedding of `Fr::serialize_compressed` (external arkworks code):
the canonical representative, 32 bytes little-endian. -/
def frSerializeCompressed (x : F) : List Nat :=
  natToBytesLE 32 x.val

/-- Embedding of `Fr::deserialize_compressed` (external arkworks code):
require exactly 32 bytes and a canonical value below the modulus. -/
def frDeserializeCompressed (bs : List Nat) : Except String F :=
  if bs.length = 32 ∧ bytesToNatLE bs < bn254r then
    .ok ((bytesToNatLE bs : Nat) : F)
  else
    .error "invalid field bytes"

/-- One lowercase hex digit character for a nibble, as emitted by
`hex::encode`. -/
def toHexDigit (n : Nat) : Char :=
  Nat.digitChar n

/-- Nibble value of a hex digit character, accepting either case, as
in `hex::decode`; `none` on a non-hex character. -/
def fromHexDigit (c : Char) : Option Nat :=
  if '0' ≤ c ∧ c ≤ '9' then some (c.toNat - '0'.toNat)
  else if 'a' ≤ c ∧ c ≤ 'f' then some (c.toNat - 'a'.toNat + 10)
  else if 'A' ≤ c ∧ c ≤ 'F' then some (c.toNat - 'A'.toNat + 10)
  else none

/-- Embedding of `hex::encode`: two lowercase digits per byte, high
nibble first. -/
def hexEncodeBytes (bs : List Nat) : List Char :=
  bs.flatMap fun b => [toHexDigit (b / 16 % 16), toHexDigit (b % 16)]

/-- Embedding of `hex::decode`: consume characters two at a time;
`none` on an odd-length input or a non-hex character. -/
def hexDecodeChars : List Char → Option (List Nat)
  | [] => some []
  | c1 :: c2 :: rest =>
    match fromHexDigit c1, fromHexDigit c2, hexDecodeChars rest with
    | some h, some l, some tl => some ((16 * h + l) :: tl)
    | _, _, _ => none
  | [_] => none

/-- Embedding of `types.rs::FrHex`: a field element as a hex string. -/
structure FrHex where
  hex : String
  deriving DecidableEq

/-- Embedding of `FrHex::from_fr`: hex of the compressed canonical
encoding. -/
def FrHex.from_fr (x : F) : FrHex :=
  ⟨String.mk (hexEncodeBytes (frSerializeCompressed x))⟩

/-- Embedding of `FrHex::to_fr`: hex-decode, then canonical
deserialization. -/
def FrHex.to_fr (h : FrHex) : Except String F :=
  match hexDecodeChars h.hex.toList with
  | none => .error "invalid hex"
  | some bytes => frDeserializeCompressed bytes

/-- Embedding of `backend::errors::ApiError` (the two variants the
proving pipeline produces). -/
inductive ApiError where
  | BadRequest (msg : String)
  | Internal
  deriving DecidableEq

section Pipeline

variable {PK VK Pf R : Type}

/-- Embedding of the per-shard proving job inside
`backend::dataset::generate_dataset_and_proofs_inner` (the
`spawn_blocking` closure, dataset.rs lines 82-109): prove the shard,
fail closed if the fresh proof does not verify, then serialize the
proof (base64) and the commitment (hex) for persistence.  Record
generation (`gen_record`, driven by the external ChaCha20 RNG) is
abstracted as the given `records` list; `b64encode` abstracts the
external base64 encoder. -/
def shard_prove_job (N : Nat) (squeeze : List F → F)
    (gprove : HealthShardCircuit → PK → R → Except String Pf)
    (gverify : VK → Pf → List F → Except String Bool)
    (serProof : Pf → Except String (List Nat))
    (b64encode : List Nat → String)
    (pk : PK) (vk : VK) (records : List Record) (rng : R) :
    Except ApiError (F × ShardStats × String × String) :=
  match prove_shard N squeeze gprove rng pk records with
  | .error _ => .error .Internal
  | .ok (proof, shard_commitment, stats) =>
    match verify_shard_proof gverify vk proof shard_commitment stats with
    | .error _ => .error .Internal
    | .ok _ =>
      match serialize_proof serProof proof with
      | .error _ => .error .Internal
      | .ok proofBytes =>
        .ok (shard_commitment, stats, b64encode proofBytes,
          String.mk (hexEncodeBytes (frSerializeCompressed shard_commitment)))

end Pipeline

/-!  Helper lemmas. -/

theorem bitsFold_eq (n k : Nat) :
    ((List.range k).map (fun i => Nat.testBit n i)).foldl
        (fun st b => (st.1 + (if b then st.2 else 0), st.2 + st.2)) ((0 : F), (1 : F)) =
      (((n % 2 ^ k : Nat) : F), ((2 ^ k : Nat) : F)) := by
  induction k with
  | zero => simp [Nat.mod_one]
  | succ k ih =>
    rw [List.range_succ, List.map_append, List.foldl_append, ih]
    simp only [List.map_cons, List.map_nil, List.foldl_cons, List.foldl_nil]
    have hdiv : n / 2 ^ k % 2 = if Nat.testBit n k then 1 else 0 := by
      rcases Nat.mod_two_eq_zero_or_one (n / 2 ^ k) with h | h <;>
        simp [Nat.testBit_to_div_mod, h]
    have hmod : n % 2 ^ (k + 1) = n % 2 ^ k + 2 ^ k * (n / 2 ^ k % 2) := by
      rw [pow_succ, Nat.mod_mul]
    refine Prod.ext ?_ ?_
    · simp only
      by_cases hb : Nat.testBit n k
      · simp only [hb, if_true]
        rw [hmod, hdiv, if_pos hb]
        push_cast
        ring
      · simp only [hb, if_false]
        rw [hmod, hdiv, if_neg hb]
        push_cast
        ring
    · simp only
      have : (2 : Nat) ^ (k + 1) = 2 ^ k + 2 ^ k := by ring
      rw [this]
      push_cast
      ring

theorem bits8_reconstruct (a : Fin 256) :
    bits_le_to_fp (witnessBits8 a) = ((a.val : Nat) : F) := by
  unfold bits_le_to_fp witnessBits8
  rw [bitsFold_eq]
  simp only
  congr 1
  exact Nat.mod_eq_of_lt a.isLt

theorem bits16_reconstruct (v : Fin 65536) :
    bits_le_to_fp (witnessBits16 v) = ((v.val : Nat) : F) := by
  unfold bits_le_to_fp witnessBits16
  rw [bitsFold_eq]
  simp only
  congr 1
  exact Nat.mod_eq_of_lt v.isLt

theorem inBucket_charac :
    ∀ a : Fin 256,
      (a.val ≤ 120 → ∀ b : Fin NUM_BUCKETS,
        (circuitInBucket b a = true ↔ bucket_for_age a.val = b.val)) ∧
      (120 < a.val → ∀ b : Fin NUM_BUCKETS, circuitInBucket b a = false) := by
  decide

theorem in_any_charac : ∀ a : Fin 256, in_any_bucket a = decide (a.val ≤ 120) := by
  decide

theorem inBucket_eq_recordBucket (r : Record) (hage : r.age.val ≤ 120)
    (b : Fin NUM_BUCKETS) :
    circuitInBucket b r.age = true ↔ b = recordBucket r := by
  rw [(inBucket_charac r.age).1 hage b]
  unfold recordBucket
  constructor
  · intro h
    exact Fin.ext h.symm
  · intro h
    subst h
    rfl

theorem foldl_shardStep_fst (records : List Record) :
    ∀ st : List F × ShardStats,
      (records.foldl shardStep st).1 = st.1 ++ records.flatMap recordAbsorb := by
  induction records with
  | nil => intro st; simp
  | cons r rest ih =>
    intro st
    rw [List.foldl_cons, ih]
    simp [shardStep]

theorem foldl_shardStep_snd (records : List Record) :
    ∀ st : List F × ShardStats,
      (records.foldl shardStep st).2 = records.foldl ShardStats.addRecord st.2 := by
  induction records with
  | nil => intro st; rfl
  | cons r rest ih =>
    intro st
    rw [List.foldl_cons, ih]
    rfl

theorem circuitAbsorbSeq_flatMap_aux (records : List Record) :
    ∀ init : List F,
      records.foldl
        (fun seq r => seq ++ [((r.age.val : Nat) : F), ((r.blood_glucose_mg_dl.val : Nat) : F)])
        init = init ++ records.flatMap recordAbsorb := by
  induction records with
  | nil => intro init; simp
  | cons r rest ih =>
    intro init
    rw [List.foldl_cons, ih]
    simp [recordAbsorb]

theorem circuitAbsorbSeq_eq_native (records : List Record) :
    circuitAbsorbSeq records = (shardScan records).1 := by
  unfold circuitAbsorbSeq shardScan
  rw [circuitAbsorbSeq_flatMap_aux, foldl_shardStep_fst]

theorem counts_sum_addRecord (s : ShardStats) (r : Record) :
    (∑ b, (s.addRecord r).count_by_bucket b) = (∑ b, s.count_by_bucket b) + 1 := by
  unfold ShardStats.addRecord
  simp only
  rw [Finset.sum_update_of_mem (Finset.mem_univ _),
    ← Finset.add_sum_erase _ _ (Finset.mem_univ (recordBucket r))]
  simp only [Finset.sdiff_singleton_eq_erase]
  omega

theorem counts_sum_foldl (records : List Record) :
    ∀ s : ShardStats,
      (∑ b, (records.foldl ShardStats.addRecord s).count_by_bucket b) =
        (∑ b, s.count_by_bucket b) + records.length := by
  induction records with
  | nil => intro s; simp
  | cons r rest ih =>
    intro s
    rw [List.foldl_cons, ih, counts_sum_addRecord]
    simp only [List.length_cons]
    omega

theorem stats_bound_foldl (records : List Record) :
    ∀ s : ShardStats,
      (∀ b, s.sum_glucose_by_bucket b ≤ s.count_by_bucket b * 65535) →
      ∀ b, (records.foldl ShardStats.addRecord s).sum_glucose_by_bucket b ≤
        (records.foldl ShardStats.addRecord s).count_by_bucket b * 65535 := by
  induction records with
  | nil => intro s h b; exact h b
  | cons r rest ih =>
    intro s h b
    rw [List.foldl_cons]
    refine ih _ ?_ b
    intro b'
    unfold ShardStats.addRecord
    simp only
    by_cases hb : b' = recordBucket r
    · subst hb
      rw [Function.update_same, Function.update_same]
      have hg : r.blood_glucose_mg_dl.val ≤ 65535 :=
        Nat.lt_succ_iff.mp r.blood_glucose_mg_dl.isLt
      have hs := h (recordBucket r)
      omega
    · rw [Function.update_noteq hb, Function.update_noteq hb]
      exact h b'

theorem count_le_total (s : ShardStats) (b : Fin NUM_BUCKETS) :
    s.count_by_bucket b ≤ ∑ b', s.count_by_bucket b' :=
  Finset.single_le_sum (fun _ _ => Nat.zero_le _) (Finset.mem_univ b)

theorem circuit_native_agg (records : List Record)
    (hage : ∀ r ∈ records, r.age.val ≤ 120) :
    ∀ (acc : (Fin NUM_BUCKETS → F) × (Fin NUM_BUCKETS → F)) (s : ShardStats),
      (∀ b, acc.1 b = ((s.sum_glucose_by_bucket b : Nat) : F)) →
      (∀ b, acc.2 b = ((s.count_by_bucket b : Nat) : F)) →
      (∀ b, (records.foldl circuitRecordStep acc).1 b =
          (((records.foldl ShardStats.addRecord s).sum_glucose_by_bucket b : Nat) : F)) ∧
      (∀ b, (records.foldl circuitRecordStep acc).2 b =
          (((records.foldl ShardStats.addRecord s).count_by_bucket b : Nat) : F)) := by
  induction records with
  | nil =>
    intro acc s h1 h2
    exact ⟨h1, h2⟩
  | cons r rest ih =>
    intro acc s h1 h2
    have hr : r.age.val ≤ 120 := hage r (by simp)
    have hrest : ∀ x ∈ rest, x.age.val ≤ 120 := fun x hx => hage x (by simp [hx])
    rw [List.foldl_cons, List.foldl_cons]
    refine ih hrest _ _ ?_ ?_
    · intro b
      show acc.1 b + _ = (((s.addRecord r).sum_glucose_by_bucket b : Nat) : F)
      unfold ShardStats.addRecord
      simp only
      by_cases hb : b = recordBucket r
      · subst hb
        rw [Function.update_same,
          if_pos ((inBucket_eq_recordBucket r hr _).mpr rfl)]
        rw [h1]
        push_cast
        ring
      · rw [Function.update_noteq hb]
        rw [if_neg ?_, h1]
        · ring
        · intro hmem
          exact hb ((inBucket_eq_recordBucket r hr b).mp hmem)
    · intro b
      show acc.2 b + _ = (((s.addRecord r).count_by_bucket b : Nat) : F)
      unfold ShardStats.addRecord
      simp only
      by_cases hb : b = recordBucket r
      · subst hb
        rw [Function.update_same,
          if_pos ((inBucket_eq_recordBucket r hr _).mpr rfl)]
        rw [h2]
        push_cast
        ring
      · rw [Function.update_noteq hb]
        rw [if_neg ?_, h2]
        · ring
        · intro hmem
          exact hb ((inBucket_eq_recordBucket r hr b).mp hmem)

theorem circuitAggregates_eq_native (records : List Record)
    (hage : ∀ r ∈ records, r.age.val ≤ 120) :
    (∀ b, (circuitAggregates records).1 b =
        (((shardScan records).2.sum_glucose_by_bucket b : Nat) : F)) ∧
    (∀ b, (circuitAggregates records).2 b =
        (((shardScan records).2.count_by_bucket b : Nat) : F)) := by
  unfold circuitAggregates shardScan
  rw [foldl_shardStep_snd]
  exact circuit_native_agg records hage _ ShardStats.zero
    (fun b => by simp [ShardStats.zero]) (fun b => by simp [ShardStats.zero])

theorem constraints_hold_at_native (squeeze : List F → F) (records : List Record)
    (hage : ∀ r ∈ records, r.age.val ≤ 120) :
    circuitConstraintsHold records.length squeeze
      { records := records
        public_shard_commitment := squeeze (shardScan records).1
        public_sum_glucose_by_bucket := (shardScan records).2.sum_glucose_by_bucket
        public_count_by_bucket := (shardScan records).2.count_by_bucket } := by
  refine ⟨rfl, ?_, ?_, ?_, ?_⟩
  · intro r hr
    refine ⟨bits8_reconstruct r.age, bits16_reconstruct r.blood_glucose_mg_dl, ?_⟩
    rw [in_any_charac r.age]
    simpa using hage r hr
  · rw [circuitAbsorbSeq_eq_native]
  · exact (circuitAggregates_eq_native records hage).1
  · exact (circuitAggregates_eq_native records hage).2

theorem two_pow_64_lt_r : (18446744073709551616 : Nat) < bn254r := by
  norm_num [bn254r]

theorem natCast_F_inj {a b : Nat} (ha : a < bn254r) (hb : b < bn254r)
    (h : ((a : Nat) : F) = ((b : Nat) : F)) : a = b := by
  have hv := congrArg ZMod.val h
  rwa [ZMod.val_cast_of_lt ha, ZMod.val_cast_of_lt hb] at hv

theorem compute_ok_of_length {N : Nat} {squeeze : List F → F} {records : List Record}
    (h : records.length = N) :
    compute_shard_commitment_and_stats N squeeze records =
      .ok (squeeze (shardScan records).1, (shardScan records).2) := by
  unfold compute_shard_commitment_and_stats
  rw [if_neg (by omega)]

theorem publicInputs_bridge (c : F) (s : ShardStats) (recs : List Record) :
    shard_public_inputs_to_field_elems c s =
      circuitPublicInputs
        { records := recs
          public_shard_commitment := c
          public_sum_glucose_by_bucket := s.sum_glucose_by_bucket
          public_count_by_bucket := s.count_by_bucket } := rfl

/-!  Claims. -/

/-- C9: the native bucket mapping is total and clamps out-of-range
ages — for every `u8` age in `[0, 120]`, `bucket_for_age` returns the
index of the unique bucket of `AGE_BUCKETS` containing it; for every
age in `[121, 255]` it returns the last index `NUM_BUCKETS - 1`; and in
all cases the result is a valid index below `NUM_BUCKETS`. -/
theorem claim_C9 :
    ∀ a : Fin 256,
      bucket_for_age a.val < NUM_BUCKETS ∧
      (a.val ≤ 120 →
        (AGE_BUCKETS.getD (bucket_for_age a.val) (0, 0)).1 ≤ a.val ∧
        a.val ≤ (AGE_BUCKETS.getD (bucket_for_age a.val) (0, 0)).2 ∧
        ∀ j : Fin NUM_BUCKETS,
          (AGE_BUCKETS.getD j.val (0, 0)).1 ≤ a.val →
          a.val ≤ (AGE_BUCKETS.getD j.val (0, 0)).2 →
          j.val = bucket_for_age a.val) ∧
      (120 < a.val → bucket_for_age a.val = NUM_BUCKETS - 1) := by
  decide

/-- Witness for C9 at the concrete ages 30 (in range, bucket 2) and
200 (out of range, clamped to the last bucket). -/
theorem claim_C9_witness :
    ((AGE_BUCKETS.getD (bucket_for_age ((30 : Fin 256)).val) (0, 0)).1 ≤
        ((30 : Fin 256)).val) ∧
    bucket_for_age ((200 : Fin 256)).val = NUM_BUCKETS - 1 :=
  ⟨((claim_C9 30).2.1 (by decide)).1, (claim_C9 200).2.2 (by decide)⟩

/-- C2: the public-input codec returns a vector of length `1 + 2·B`
(`B = NUM_BUCKETS = 6`) in the order `[commitment, sums, counts]`, and
this order coincides with the order of the circuit's `new_input`
allocations. -/
theorem claim_C2 (commitment : F) (stats : ShardStats) (records : List Record) :
    (shard_public_inputs_to_field_elems commitment stats).length = 1 + 2 * NUM_BUCKETS ∧
    shard_public_inputs_to_field_elems commitment stats =
      [commitment,
       ((stats.sum_glucose_by_bucket 0 : Nat) : F), ((stats.sum_glucose_by_bucket 1 : Nat) : F),
       ((stats.sum_glucose_by_bucket 2 : Nat) : F), ((stats.sum_glucose_by_bucket 3 : Nat) : F),
       ((stats.sum_glucose_by_bucket 4 : Nat) : F), ((stats.sum_glucose_by_bucket 5 : Nat) : F),
       ((stats.count_by_bucket 0 : Nat) : F), ((stats.count_by_bucket 1 : Nat) : F),
       ((stats.count_by_bucket 2 : Nat) : F), ((stats.count_by_bucket 3 : Nat) : F),
       ((stats.count_by_bucket 4 : Nat) : F), ((stats.count_by_bucket 5 : Nat) : F)] ∧
    shard_public_inputs_to_field_elems commitment stats =
      circuitPublicInputs
        { records := records
          public_shard_commitment := commitment
          public_sum_glucose_by_bucket := stats.sum_glucose_by_bucket
          public_count_by_bucket := stats.count_by_bucket } := by
  refine ⟨?_, ?_, rfl⟩
  · simp [shard_public_inputs_to_field_elems, NUM_BUCKETS]
  · rfl

/-- C7: the statistics returned by a successful
`compute_shard_commitment_and_stats` satisfy both invariants — the
bucket counts sum to `N`, and each bucket's glucose sum is at most its
count times the 16-bit maximum 65535. -/
theorem claim_C7 (N : Nat) (squeeze : List F → F) (records : List Record)
    (commitment : F) (stats : ShardStats)
    (h : compute_shard_commitment_and_stats N squeeze records = .ok (commitment, stats)) :
    (∑ b, stats.count_by_bucket b) = N ∧
    ∀ b, stats.sum_glucose_by_bucket b ≤ stats.count_by_bucket b * 65535 := by
  unfold compute_shard_commitment_and_stats at h
  split at h
  · exact absurd h (by simp)
  next hlen =>
    have hN : records.length = N := by omega
    have hstats : stats = (shardScan records).2 := by
      have := congrArg (fun e => match e with
        | Except.ok (p : F × ShardStats) => p.2
        | Except.error _ => ShardStats.zero) h
      simpa using this.symm
    subst hstats
    constructor
    · unfold shardScan
      rw [foldl_shardStep_snd, counts_sum_foldl]
      simp [ShardStats.zero, hN]
    · intro b
      unfold shardScan
      rw [foldl_shardStep_snd]
      exact stats_bound_foldl records ShardStats.zero
        (fun b' => by simp [ShardStats.zero]) b

/-- Witness for C7 on a concrete two-record shard. -/
theorem claim_C7_witness :
    (∑ b, (shardScan [⟨10, 100⟩, ⟨70, 200⟩]).2.count_by_bucket b) = 2 ∧
    ∀ b, (shardScan [⟨10, 100⟩, ⟨70, 200⟩]).2.sum_glucose_by_bucket b ≤
      (shardScan [⟨10, 100⟩, ⟨70, 200⟩]).2.count_by_bucket b * 65535 :=
  claim_C7 2 (fun _ => 0) [⟨10, 100⟩, ⟨70, 200⟩] 0 (shardScan [⟨10, 100⟩, ⟨70, 200⟩]).2 rfl

/-- C8: for record slices whose length differs from `N`, both
`prove_shard` and `compute_shard_commitment_and_stats` return
`ZkError::InvalidShardSize` carrying `N` and the actual length, and
they get past the size check exactly when the length equals `N`. -/
theorem claim_C8 {PK Pf R : Type} (N : Nat) (squeeze : List F → F)
    (gprove : HealthShardCircuit → PK → R → Except String Pf)
    (rng : R) (pk : PK) (records : List Record) :
    (records.length ≠ N →
      prove_shard N squeeze gprove rng pk records =
        .error (.InvalidShardSize N records.length) ∧
      compute_shard_commitment_and_stats N squeeze records =
        .error (.InvalidShardSize N records.length)) ∧
    (records.length = N →
      compute_shard_commitment_and_stats N squeeze records =
        .ok (squeeze (shardScan records).1, (shardScan records).2) ∧
      ∀ e g, prove_shard N squeeze gprove rng pk records ≠
        .error (.InvalidShardSize e g)) := by
  constructor
  · intro hne
    constructor
    · unfold prove_shard
      rw [if_pos hne]
    · unfold compute_shard_commitment_and_stats
      rw [if_pos hne]
  · intro heq
    refine ⟨compute_ok_of_length heq, ?_⟩
    intro e g
    unfold prove_shard
    rw [if_neg (by omega), compute_ok_of_length heq]
    cases hg : (gprove
        { records := records
          public_shard_commitment := squeeze (shardScan records).1
          public_sum_glucose_by_bucket := (shardScan records).2.sum_glucose_by_bucket
          public_count_by_bucket := (shardScan records).2.count_by_bucket } pk rng) with
    | error msg => simp [Except.mapError, hg]
    | ok pf => simp [Except.mapError, hg]

/-- Witness for C8: the empty slice against `N = 1` is rejected with
the mismatch error, and a length-1 slice passes the check. -/
theorem claim_C8_witness :
    (@prove_shard Unit Unit Unit 1 (fun _ => 0) (fun _ _ _ => .ok ()) () () [] =
      .error (.InvalidShardSize 1 0) ∧
     compute_shard_commitment_and_stats 1 (fun _ => 0) [] =
      .error (.InvalidShardSize 1 0)) ∧
    (compute_shard_commitment_and_stats 1 (fun _ => (0 : F)) [⟨10, 100⟩] =
      .ok ((0 : F), (shardScan [⟨10, 100⟩]).2)) :=
  ⟨(@claim_C8 Unit Unit Unit 1 (fun _ => 0) (fun _ _ _ => .ok ()) () () []).1 (by decide),
   ((@claim_C8 Unit Unit Unit 1 (fun _ => 0) (fun _ _ _ => .ok ()) () ()
      [⟨10, 100⟩]).2 rfl).1⟩

/-- C10: whenever `prove_shard` succeeds, the commitment and stats it
returns are exactly the `Ok` value of
`compute_shard_commitment_and_stats` on its witness records. -/
theorem claim_C10 {PK Pf R : Type} (N : Nat) (squeeze : List F → F)
    (gprove : HealthShardCircuit → PK → R → Except String Pf)
    (rng : R) (pk : PK) (records : List Record)
    (proof : Pf) (commitment : F) (stats : ShardStats)
    (h : prove_shard N squeeze gprove rng pk records = .ok (proof, commitment, stats)) :
    compute_shard_commitment_and_stats N squeeze records = .ok (commitment, stats) := by
  unfold prove_shard at h
  split at h
  · exact absurd h (by simp)
  next hlen =>
    have hN : records.length = N := by omega
    rw [compute_ok_of_length hN] at h
    rw [compute_ok_of_length hN]
    cases hg : (gprove
        { records := records
          public_shard_commitment := squeeze (shardScan records).1
          public_sum_glucose_by_bucket := (shardScan records).2.sum_glucose_by_bucket
          public_count_by_bucket := (shardScan records).2.count_by_bucket } pk rng) with
    | error msg =>
      simp only [hg, Except.mapError] at h
      exact absurd h (by simp)
    | ok pf =>
      simp only [hg, Except.mapError, Except.ok.injEq, Prod.mk.injEq] at h
      obtain ⟨h1, h2, h3⟩ := h
      rw [← h2, ← h3]

/-- Witness for C10 on a concrete one-record shard. -/
theorem claim_C10_witness :
    compute_shard_commitment_and_stats 1 (fun _ => (0 : F)) [⟨0, 70⟩] =
      .ok ((0 : F), (shardScan [⟨0, 70⟩]).2) :=
  claim_C10 1 (fun _ => 0) (fun _ _ _ => (Except.ok () : Except String Unit)) () ()
    [⟨0, 70⟩] () 0 (shardScan [⟨0, 70⟩]).2 rfl

/-- C5: for every 8-bit age, the circuit's per-bucket membership
booleans (`in_range_u8` against `AGE_BUCKETS`) have exactly one true
member when the age is in `[0, 120]` and none when it is in
`[121, 255]`; consequently the exhaustiveness constraint
`in_any_bucket == true` makes the constraints unsatisfiable for any
record whose age exceeds 120. -/
theorem claim_C5 :
    (∀ a : Fin 256,
      (a.val ≤ 120 → ∃! b : Fin NUM_BUCKETS, circuitInBucket b a = true) ∧
      (120 < a.val → ∀ b : Fin NUM_BUCKETS, circuitInBucket b a = false)) ∧
    (∀ (N : Nat) (squeeze : List F → F) (c : HealthShardCircuit),
      (∃ r ∈ c.records, 120 < r.age.val) →
      ¬ circuitConstraintsHold N squeeze c) := by
  constructor
  · intro a
    constructor
    · intro ha
      refine ⟨⟨bucket_for_age a.val, by
          have := bucket_for_age_lt a.val
          omega⟩, ?_, ?_⟩
      · exact ((inBucket_charac a).1 ha _).mpr rfl
      · intro b hb
        have := ((inBucket_charac a).1 ha b).mp hb
        exact Fin.ext this.symm
    · exact (inBucket_charac a).2
  · intro N squeeze c hbad hold
    obtain ⟨r, hr, hage⟩ := hbad
    have hany := ((hold.2.1 r hr).2.2 : in_any_bucket r.age = true)
    rw [in_any_charac r.age] at hany
    simp at hany
    omega

/-- Witness for C5: age 40 lies in exactly one bucket, and the
concrete one-record circuit with age 200 is unsatisfiable. -/
theorem claim_C5_witness :
    (∃! b : Fin NUM_BUCKETS, circuitInBucket b (40 : Fin 256) = true) ∧
    ¬ circuitConstraintsHold 1 (fun _ => (0 : F))
      { records := [⟨200, 0⟩]
        public_shard_commitment := 0
        public_sum_glucose_by_bucket := fun _ => 0
        public_count_by_bucket := fun _ => 0 } :=
  ⟨(claim_C5.1 (40 : Fin 256)).1 (by decide),
   claim_C5.2 1 (fun _ => 0) _ ⟨⟨200, 0⟩, by simp, by decide⟩⟩

/-- Counterexample to C1 as stated: for the single record with age 200
the native evaluator clamps the record into the last bucket
(count 1), while the circuit's accumulators add nothing (count 0) and
no satisfying assignment exists at the native evaluator's outputs. -/
theorem claim_C1_counterexample :
    (circuitAggregates [⟨200, 0⟩]).2 (5 : Fin NUM_BUCKETS) ≠
      (((shardScan [⟨200, 0⟩]).2.count_by_bucket (5 : Fin NUM_BUCKETS) : Nat) : F) ∧
    ¬ circuitConstraintsHold 1 (fun _ => (0 : F))
      { records := [⟨200, 0⟩]
        public_shard_commitment := (0 : F)
        public_sum_glucose_by_bucket := (shardScan [⟨200, 0⟩]).2.sum_glucose_by_bucket
        public_count_by_bucket := (shardScan [⟨200, 0⟩]).2.count_by_bucket } := by
  constructor
  · intro h
    have h0 : (circuitAggregates [⟨200, 0⟩]).2 (5 : Fin NUM_BUCKETS) = (0 : F) := by
      decide
    have h1 : (shardScan [⟨200, 0⟩]).2.count_by_bucket (5 : Fin NUM_BUCKETS) = 1 := by
      decide
    rw [h0, h1] at h
    have : ((1 : Nat) : F) ≠ 0 := by
      intro hc
      have := natCast_F_inj (by norm_num [bn254r]) (by norm_num [bn254r])
        (hc.trans (Nat.cast_zero).symm)
      omega
    exact this h.symm
  · intro hold
    have hany := ((hold.2.1 ⟨200, 0⟩ (by simp)).2.2 : in_any_bucket (200 : Fin 256) = true)
    rw [in_any_charac] at hany
    exact absurd hany (by decide)

/-- C1 (amended): for every list of records whose ages all lie in
`[0, 120]` (and whose total size respects the code's field-size
contract), the native shard evaluator and the in-circuit computation
agree — the absorbed Poseidon sequences are identical (hence the
commitments are equal for the shared squeeze), the circuit's
accumulators equal the casts of the native per-bucket sums and counts,
and a satisfying assignment exists exactly at the native evaluator's
outputs.  For a record with age above 120 the two sides disagree
(`claim_C1_counterexample`). -/
theorem claim_C1_amended (squeeze : List F → F) (records : List Record)
    (hage : ∀ r ∈ records, r.age.val ≤ 120)
    (hsize : records.length * 65535 < bn254r)
    (pubC : F) (pubSums pubCounts : Fin NUM_BUCKETS → Nat)
    (hu64s : ∀ b, pubSums b < 18446744073709551616)
    (hu64c : ∀ b, pubCounts b < 18446744073709551616) :
    circuitAbsorbSeq records = (shardScan records).1 ∧
    (∀ b, (circuitAggregates records).1 b =
        (((shardScan records).2.sum_glucose_by_bucket b : Nat) : F)) ∧
    (∀ b, (circuitAggregates records).2 b =
        (((shardScan records).2.count_by_bucket b : Nat) : F)) ∧
    (circuitConstraintsHold records.length squeeze
        { records := records
          public_shard_commitment := pubC
          public_sum_glucose_by_bucket := pubSums
          public_count_by_bucket := pubCounts } ↔
      (pubC = squeeze (shardScan records).1 ∧
       pubSums = (shardScan records).2.sum_glucose_by_bucket ∧
       pubCounts = (shardScan records).2.count_by_bucket)) := by
  have hagg := circuitAggregates_eq_native records hage
  refine ⟨circuitAbsorbSeq_eq_native records, hagg.1, hagg.2, ?_, ?_⟩
  · intro hold
    have hcount_le : ∀ b, (shardScan records).2.count_by_bucket b ≤ records.length := by
      intro b
      have h1 := count_le_total (shardScan records).2 b
      have h2 : (∑ b', (shardScan records).2.count_by_bucket b') = records.length := by
        unfold shardScan
        rw [foldl_shardStep_snd, counts_sum_foldl]
        simp [ShardStats.zero]
      omega
    have hsum_lt : ∀ b, (shardScan records).2.sum_glucose_by_bucket b < bn254r := by
      intro b
      have h1 : (shardScan records).2.sum_glucose_by_bucket b ≤
          (shardScan records).2.count_by_bucket b * 65535 := by
        unfold shardScan
        rw [foldl_shardStep_snd]
        exact stats_bound_foldl records ShardStats.zero
          (fun b' => by simp [ShardStats.zero]) b
      have h2 := hcount_le b
      nlinarith
    have hcount_lt : ∀ b, (shardScan records).2.count_by_bucket b < bn254r := by
      intro b
      have h1 := hcount_le b
      nlinarith
    have hc : squeeze (circuitAbsorbSeq records) = pubC := hold.2.2.1
    have hs : ∀ b, (circuitAggregates records).1 b = ((pubSums b : Nat) : F) :=
      hold.2.2.2.1
    have hct : ∀ b, (circuitAggregates records).2 b = ((pubCounts b : Nat) : F) :=
      hold.2.2.2.2
    refine ⟨?_, ?_, ?_⟩
    · rw [← hc, circuitAbsorbSeq_eq_native records]
    · funext b
      refine natCast_F_inj (lt_trans (hu64s b) two_pow_64_lt_r) (hsum_lt b) ?_
      rw [← hs b, hagg.1 b]
    · funext b
      refine natCast_F_inj (lt_trans (hu64c b) two_pow_64_lt_r) (hcount_lt b) ?_
      rw [← hct b, hagg.2 b]
  · rintro ⟨h1, h2, h3⟩
    subst h1
    subst h2
    subst h3
    exact constraints_hold_at_native squeeze records hage

/-- Witness for the amended C1 on a concrete in-range record list. -/
theorem claim_C1_witness :
    circuitAbsorbSeq [⟨10, 100⟩] = (shardScan [⟨10, 100⟩]).1 :=
  (claim_C1_amended (fun _ => 0) [⟨10, 100⟩] (by decide) (by norm_num [bn254r])
    0 ((shardScan [⟨10, 100⟩]).2.sum_glucose_by_bucket)
    ((shardScan [⟨10, 100⟩]).2.count_by_bucket)
    (by decide) (by decide)).1

/-- C3: prove-verify completeness — for every well-formed record list
(each age in `[0, 120]`), if `prove_shard` succeeds with a proving key
from `setup_keys`, then `verify_shard_proof` accepts the returned
proof against the returned commitment and stats.  The external Groth16
SNARK is abstract here; its completeness (`Groth16Complete`) is the
hypothesis the spec's round-trip property rests on. -/
theorem claim_C3 {PK VK Pf R : Type} (N : Nat) (squeeze : List F → F)
    (gsetup : HealthShardCircuit → R → Except String (PK × VK))
    (gprove : HealthShardCircuit → PK → R → Except String Pf)
    (gverify : VK → Pf → List F → Except String Bool)
    (hcomplete : Groth16Complete squeeze gsetup gprove gverify)
    (rng0 rng1 : R) (pk : PK) (vk : VK) (records : List Record)
    (proof : Pf) (commitment : F) (stats : ShardStats)
    (hage : ∀ r ∈ records, r.age.val ≤ 120)
    (hsetup : setup_keys N squeeze gsetup rng0 = .ok (pk, vk))
    (hprove : prove_shard N squeeze gprove rng1 pk records = .ok (proof, commitment, stats)) :
    verify_shard_proof gverify vk proof commitment stats = .ok () := by
  unfold prove_shard at hprove
  split at hprove
  · exact absurd hprove (by simp)
  next hlen =>
    have hN : records.length = N := by omega
    rw [compute_ok_of_length hN] at hprove
    unfold setup_keys at hsetup
    rw [compute_ok_of_length
      (by simp : (List.replicate N ({ age := 0, blood_glucose_mg_dl := 0 } : Record)).length = N)]
      at hsetup
    cases hg0 : gsetup
        { records := List.replicate N ({ age := 0, blood_glucose_mg_dl := 0 } : Record)
          public_shard_commitment :=
            squeeze (shardScan (List.replicate N ({ age := 0, blood_glucose_mg_dl := 0 } : Record))).1
          public_sum_glucose_by_bucket :=
            (shardScan (List.replicate N ({ age := 0, blood_glucose_mg_dl := 0 } : Record))).2.sum_glucose_by_bucket
          public_count_by_bucket :=
            (shardScan (List.replicate N ({ age := 0, blood_glucose_mg_dl := 0 } : Record))).2.count_by_bucket }
        rng0 with
    | error msg =>
      simp only [hg0, Except.mapError] at hsetup
      exact absurd hsetup (by simp)
    | ok pkvk =>
      obtain ⟨pk', vk'⟩ := pkvk
      simp only [hg0, Except.mapError, Except.ok.injEq, Prod.mk.injEq] at hsetup
      obtain ⟨hpk, hvk⟩ := hsetup
      rw [hpk, hvk] at hg0
      cases hgp : gprove
          { records := records
            public_shard_commitment := squeeze (shardScan records).1
            public_sum_glucose_by_bucket := (shardScan records).2.sum_glucose_by_bucket
            public_count_by_bucket := (shardScan records).2.count_by_bucket } pk rng1 with
      | error msg =>
        simp only [hgp, Except.mapError] at hprove
        exact absurd hprove (by simp)
      | ok pf =>
        simp only [hgp, Except.mapError, Except.ok.injEq, Prod.mk.injEq] at hprove
        obtain ⟨hpf, hcomm, hstats⟩ := hprove
        subst hpf
        subst hcomm
        subst hstats
        have hold := constraints_hold_at_native squeeze records hage
        have hlenr : records.length =
            (List.replicate N ({ age := 0, blood_glucose_mg_dl := 0 } : Record)).length := by
          simp [hN]
        have hv := hcomplete _ _ rng0 rng1 pk vk pf hg0 hlenr hgp hold
        unfold verify_shard_proof
        rw [publicInputs_bridge _ _ records, hv]
        simp [Except.mapError]

/-- Witness for C3 with the trivially complete abstract SNARK on a
concrete one-record shard. -/
theorem claim_C3_witness :
    verify_shard_proof (fun _ _ _ => (Except.ok true : Except String Bool)) () ()
      ((0 : F)) (shardScan [⟨0, 70⟩]).2 = .ok () :=
  claim_C3 1 (fun _ => 0) (fun _ _ => (Except.ok ((), ()) : Except String (Unit × Unit)))
    (fun _ _ _ => (Except.ok () : Except String Unit))
    (fun _ _ _ => (Except.ok true : Except String Bool))
    (fun _ _ _ _ _ _ _ _ _ _ _ => rfl)
    () () () () [⟨0, 70⟩] () 0 (shardScan [⟨0, 70⟩]).2
    (by decide) rfl rfl

/-- Counterexample to C4 as stated: `prove_shard` itself performs no
post-generation verification — it returns its proof even when
verification of that proof against the same public inputs fails (an
always-rejecting abstract verifier makes this observable), so "a proof
is only ever returned after a successful verification" is false for
the prover function. -/
theorem claim_C4_counterexample :
    prove_shard 1 (fun _ => (0 : F)) (fun _ _ _ => (Except.ok () : Except String Unit))
        () () [⟨0, 70⟩] = .ok ((), 0, (shardScan [⟨0, 70⟩]).2) ∧
    verify_shard_proof (fun _ _ _ => (Except.ok false : Except String Bool)) () ()
        (0 : F) (shardScan [⟨0, 70⟩]).2 = .error .VerificationFailed :=
  ⟨rfl, rfl⟩

/-- C4 (amended): the fail-closed check lives in the backend proving
pipeline, not in `prove_shard` — whenever the per-shard job of
`generate_dataset_and_proofs_inner` succeeds (and hence persists its
outputs), the proof it produced was verified successfully by
`verify_shard_proof` against the same commitment and stats, and a
failing self-check aborts the job before serialization or
persistence. -/
theorem claim_C4_amended {PK VK Pf R : Type} (N : Nat) (squeeze : List F → F)
    (gprove : HealthShardCircuit → PK → R → Except String Pf)
    (gverify : VK → Pf → List F → Except String Bool)
    (serProof : Pf → Except String (List Nat))
    (b64encode : List Nat → String)
    (pk : PK) (vk : VK) (records : List Record) (rng : R)
    (out : F × ShardStats × String × String)
    (h : shard_prove_job N squeeze gprove gverify serProof b64encode pk vk records rng =
      .ok out) :
    ∃ proof : Pf,
      prove_shard N squeeze gprove rng pk records = .ok (proof, out.1, out.2.1) ∧
      verify_shard_proof gverify vk proof out.1 out.2.1 = .ok () := by
  unfold shard_prove_job at h
  cases hp : prove_shard N squeeze gprove rng pk records with
  | error e =>
    rw [hp] at h
    exact absurd h (by simp)
  | ok t =>
    obtain ⟨proof, shard_commitment, stats⟩ := t
    rw [hp] at h
    cases hv : verify_shard_proof gverify vk proof shard_commitment stats with
    | error e =>
      simp only [hv] at h
      exact absurd h (by simp)
    | ok u =>
      simp only [hv] at h
      cases hs : serialize_proof serProof proof with
      | error e =>
        simp only [hs] at h
        exact absurd h (by simp)
      | ok bytes =>
        simp only [hs, Except.ok.injEq] at h
        refine ⟨proof, ?_, ?_⟩
        · rw [← h]
        · cases u
          rw [← h]
          exact hv

/-- Witness for the amended C4 on a concrete shard job that
succeeds. -/
theorem claim_C4_witness :
    ∃ proof : Unit,
      prove_shard 1 (fun _ => (0 : F)) (fun _ _ _ => (Except.ok () : Except String Unit))
          () () [⟨0, 70⟩] = .ok (proof, (0 : F), (shardScan [⟨0, 70⟩]).2) ∧
      verify_shard_proof (fun _ _ _ => (Except.ok true : Except String Bool)) () () (0 : F)
        (shardScan [⟨0, 70⟩]).2 = .ok () := by
  exact claim_C4_amended 1 (fun _ => 0) (fun _ _ _ => .ok ())
    (fun _ _ _ => .ok true) (fun _ => .ok []) (fun _ => "") () () [⟨0, 70⟩] ()
    _ rfl

theorem natToBytesLE_length (k : Nat) : ∀ n, (natToBytesLE k n).length = k := by
  induction k with
  | zero => intro n; rfl
  | succ k ih =>
    intro n
    show (n % 256 :: natToBytesLE k (n / 256)).length = k + 1
    simp [ih]

theorem natToBytesLE_lt (k : Nat) : ∀ n, ∀ b ∈ natToBytesLE k n, b < 256 := by
  induction k with
  | zero => intro n b hb; simp [natToBytesLE] at hb
  | succ k ih =>
    intro n b hb
    rcases List.mem_cons.mp hb with h | h
    · subst h
      exact Nat.mod_lt _ (by norm_num)
    · exact ih (n / 256) b h

theorem bytesToNatLE_natToBytesLE (k : Nat) : ∀ n,
    bytesToNatLE (natToBytesLE k n) = n % 256 ^ k := by
  induction k with
  | zero => intro n; simp [natToBytesLE, bytesToNatLE, Nat.mod_one]
  | succ k ih =>
    intro n
    show bytesToNatLE (n % 256 :: natToBytesLE k (n / 256)) = n % 256 ^ (k + 1)
    unfold bytesToNatLE
    rw [List.foldr_cons]
    have : (natToBytesLE k (n / 256)).foldr (fun b acc => b + 256 * acc) 0 =
        n / 256 % 256 ^ k := ih (n / 256)
    rw [this, pow_succ', Nat.mod_mul]

theorem fromHex_toHex : ∀ n : Fin 16, fromHexDigit (toHexDigit n.val) = some n.val := by
  decide

theorem hexDecode_hexEncode (bs : List Nat) (h : ∀ b ∈ bs, b < 256) :
    hexDecodeChars (hexEncodeBytes bs) = some bs := by
  induction bs with
  | nil => rfl
  | cons b rest ih =>
    have hb : b < 256 := h b (by simp)
    have hrest := ih fun x hx => h x (by simp [hx])
    have henc : hexEncodeBytes (b :: rest) =
        toHexDigit (b / 16 % 16) :: toHexDigit (b % 16) :: hexEncodeBytes rest := by
      simp [hexEncodeBytes]
    rw [henc]
    have h1 : fromHexDigit (toHexDigit (b / 16 % 16)) = some (b / 16 % 16) :=
      fromHex_toHex ⟨b / 16 % 16, Nat.mod_lt _ (by norm_num)⟩
    have h2 : fromHexDigit (toHexDigit (b % 16)) = some (b % 16) :=
      fromHex_toHex ⟨b % 16, Nat.mod_lt _ (by norm_num)⟩
    simp only [hexDecodeChars, h1, h2, hrest]
    have : 16 * (b / 16 % 16) + b % 16 = b := by omega
    rw [this]

theorem bn254r_lt_pow : bn254r < 256 ^ 32 := by
  norm_num [bn254r]

theorem frHex_roundtrip (x : F) : (FrHex.from_fr x).to_fr = .ok x := by
  have hdec : hexDecodeChars (String.mk (hexEncodeBytes (frSerializeCompressed x))).toList =
      some (frSerializeCompressed x) :=
    hexDecode_hexEncode _ (natToBytesLE_lt 32 x.val)
  have hval : bytesToNatLE (frSerializeCompressed x) = x.val := by
    unfold frSerializeCompressed
    rw [bytesToNatLE_natToBytesLE]
    exact Nat.mod_eq_of_lt (lt_trans (ZMod.val_lt x) bn254r_lt_pow)
  have hlen : (frSerializeCompressed x).length = 32 := by
    unfold frSerializeCompressed
    exact natToBytesLE_length 32 x.val
  unfold FrHex.to_fr FrHex.from_fr frDeserializeCompressed
  simp only [hdec]
  rw [if_pos ⟨hlen, by rw [hval]; exact ZMod.val_lt x⟩]
  rw [hval]
  exact congrArg Except.ok (ZMod.natCast_rightInverse x)

/-- C6: serialization round trips losslessly for every artifact kind —
the repository's proving-key, verifying-key, and proof wrappers
preserve the (abstract, arkworks) canonical codec's round trip, and the
concrete `FrHex` hex codec round-trips every field element. -/
theorem claim_C6 {PK VK Pf : Type}
    (serP : PK → Except String (List Nat)) (deserP : List Nat → Except String PK)
    (serV : VK → Except String (List Nat)) (deserV : List Nat → Except String VK)
    (serPf : Pf → Except String (List Nat)) (deserPf : List Nat → Except String Pf)
    (hP : ∀ x bs, serP x = .ok bs → deserP bs = .ok x)
    (hV : ∀ x bs, serV x = .ok bs → deserV bs = .ok x)
    (hPf : ∀ x bs, serPf x = .ok bs → deserPf bs = .ok x) :
    (∀ (pk : PK) (bs : List Nat), serialize_pk serP pk = .ok bs →
      deserialize_pk deserP bs = .ok pk) ∧
    (∀ (vk : VK) (bs : List Nat), serialize_vk serV vk = .ok bs →
      deserialize_vk deserV bs = .ok vk) ∧
    (∀ (pf : Pf) (bs : List Nat), serialize_proof serPf pf = .ok bs →
      deserialize_proof deserPf bs = .ok pf) ∧
    (∀ x : F, (FrHex.from_fr x).to_fr = .ok x) := by
  refine ⟨?_, ?_, ?_, frHex_roundtrip⟩
  · intro pk bs h
    unfold serialize_pk at h
    unfold deserialize_pk
    cases hs : serP pk with
    | error e => rw [hs] at h; exact absurd h (by simp [Except.mapError])
    | ok bs' =>
      rw [hs] at h
      simp only [Except.mapError, Except.ok.injEq] at h
      subst h
      rw [hP pk bs' hs]
      rfl
  · intro vk bs h
    unfold serialize_vk at h
    unfold deserialize_vk
    cases hs : serV vk with
    | error e => rw [hs] at h; exact absurd h (by simp [Except.mapError])
    | ok bs' =>
      rw [hs] at h
      simp only [Except.mapError, Except.ok.injEq] at h
      subst h
      rw [hV vk bs' hs]
      rfl
  · intro pf bs h
    unfold serialize_proof at h
    unfold deserialize_proof
    cases hs : serPf pf with
    | error e => rw [hs] at h; exact absurd h (by simp [Except.mapError])
    | ok bs' =>
      rw [hs] at h
      simp only [Except.mapError, Except.ok.injEq] at h
      subst h
      rw [hPf pf bs' hs]
      rfl

/-- Witness for C6: a concrete field element round-trips through the
hex codec (via the claim instantiated with a trivially invertible
abstract codec). -/
theorem claim_C6_witness :
    (FrHex.from_fr (5 : F)).to_fr = .ok (5 : F) :=
  (claim_C6 (fun _ : Unit => .ok []) (fun _ => .ok ())
    (fun _ : Unit => .ok []) (fun _ => .ok ())
    (fun _ : Unit => .ok []) (fun _ => .ok ())
    (fun _ _ _ => rfl) (fun _ _ _ => rfl) (fun _ _ _ => rfl)).2.2.2 5

end PrivacyHealthLedger
